import Mathlib

/-!
Verification of the mini-service group-registration / API-exposure pipeline.

This file gives a shallow embedding, in Lean 4, of the core of the
`mini-service` repository:

* `getParamNames`, `arrayToObj`, `validateParams`, `isApi`
  (lib/utils.js of mini-service-utils, here `src/unnamed/part_002`);
* `extractApis`, `purge`, the exposure checksum (`src/lib/utils.js`);
* the HTTP route registration, method selection, handler argument
  reconstruction and error wrapping
  (`src/lib/transports/http/register-route.js`).

JavaScript values are modelled by the inductive `JsVal`; `undefined` is
modelled by `none` in `Option JsVal` (abbreviated `JsU`).  JavaScript
objects are association lists whose key-iteration order follows the JS
specification: canonical array-index keys in ascending numeric order
first, then the remaining string keys in insertion order.  Strings are
handled as `List Char`; all strings occurring here are ASCII, so a byte
of the UTF-8 serialization is a `Char.toNat`.

The regular-expression-driven signature introspection of
`getParamNames` is embedded by implementing, for the three concrete
regexes of the source, exactly the match the JavaScript backtracking
engine finds (`.` does not match a newline; lazy groups find the
earliest closing parenthesis; the greedy capture of the arrow branch
takes the longest valid token).
-/

deriving instance DecidableEq for Except

set_option maxRecDepth 8000

/-! ### Decimal strings (JS number-to-string / array index keys) -/

/-- The decimal digit character for `n < 10`. -/
def digitChar10 (n : Nat) : Char := Char.ofNat (48 + n)

/-- Decimal digits, fuelled recursion (so that the kernel can evaluate
it); `natToChars` supplies sufficient fuel. -/
def natToCharsAux (fuel n : Nat) : List Char :=
  match fuel with
  | 0 => []
  | f + 1 =>
    if n < 10 then [digitChar10 n]
    else natToCharsAux f (n / 10) ++ [digitChar10 (n % 10)]

/-- Decimal digits of `n`, most significant first (JS `String(n)`). -/
def natToChars (n : Nat) : List Char := natToCharsAux (n + 1) n

theorem natToCharsAux_congr :
    ∀ f₁ f₂ n, n < f₁ → n < f₂ → natToCharsAux f₁ n = natToCharsAux f₂ n := by
  intro f₁
  induction f₁ with
  | zero => intro f₂ n h; omega
  | succ f ih =>
    intro f₂ n h1 h2
    cases f₂ with
    | zero => omega
    | succ g =>
      simp only [natToCharsAux]
      split
      · rfl
      · next hn =>
        have hd : n / 10 < n := Nat.div_lt_self (by omega) (by omega)
        rw [ih g (n / 10) (by omega) (by omega)]

theorem natToChars_eq (n : Nat) :
    natToChars n =
      if n < 10 then [digitChar10 n]
      else natToChars (n / 10) ++ [digitChar10 (n % 10)] := by
  show natToCharsAux (n + 1) n = _
  simp only [natToCharsAux]
  split
  · rfl
  · next hn =>
    have hd : n / 10 < n := Nat.div_lt_self (by omega) (by omega)
    rw [natToCharsAux_congr n (n / 10 + 1) (n / 10) (by omega) (by omega)]
    rfl

/-- JS `String(n)` for a natural number. -/
def natToStr (n : Nat) : String := ⟨natToChars n⟩

/-- Numeric value of a decimal digit character. -/
def digitVal (c : Char) : Option Nat :=
  if 48 ≤ c.toNat ∧ c.toNat ≤ 57 then some (c.toNat - 48) else none

/-- Parse a run of decimal digits, `none` on any non-digit. -/
def parseDigits (acc : Nat) : List Char → Option Nat
  | [] => some acc
  | c :: rest =>
    match digitVal c with
    | some d => parseDigits (acc * 10 + d) rest
    | none => none

/-- Parse a non-empty all-digit string. -/
def strToNat (s : String) : Option Nat :=
  if s.data = [] then none else parseDigits 0 s.data

theorem parseDigits_append (acc : Nat) (l₁ l₂ : List Char) :
    parseDigits acc (l₁ ++ l₂) =
      match parseDigits acc l₁ with
      | some a => parseDigits a l₂
      | none => none := by
  induction l₁ generalizing acc with
  | nil => simp [parseDigits]
  | cons c rest ih =>
    simp only [List.cons_append, parseDigits]
    cases digitVal c with
    | some d => exact ih _
    | none => rfl

theorem digitVal_digitChar10 {n : Nat} (h : n < 10) :
    digitVal (digitChar10 n) = some n := by
  interval_cases n <;> decide

theorem natToChars_ne_nil (n : Nat) : natToChars n ≠ [] := by
  rw [natToChars_eq]
  split
  · simp
  · simp

theorem parseDigits_natToChars (n : Nat) :
    ∀ acc, parseDigits acc (natToChars n) =
      some (acc * 10 ^ (natToChars n).length + n) := by
  induction n using Nat.strong_induction_on with
  | _ n ih =>
    intro acc
    rw [natToChars_eq]
    split
    · next h =>
      simp [parseDigits, digitVal_digitChar10 h]
    · next h =>
      have hd : n / 10 < n := Nat.div_lt_self (by omega) (by omega)
      rw [parseDigits_append, ih (n / 10) hd acc]
      have h10 : n % 10 < 10 := Nat.mod_lt _ (by omega)
      simp only [parseDigits, digitVal_digitChar10 h10, List.length_append,
        List.length_singleton]
      congr 1
      have := Nat.div_add_mod n 10
      ring_nf
      omega

theorem strToNat_natToStr (n : Nat) : strToNat (natToStr n) = some n := by
  have h := parseDigits_natToChars n 0
  simp [strToNat, natToStr, natToChars_ne_nil n, h]

theorem natToStr_injective : Function.Injective natToStr := by
  intro a b h
  have := strToNat_natToStr a
  rw [h, strToNat_natToStr b] at this
  exact (Option.some_injective _ this).symm

/-- JS canonical array-index test: `s` is an array index key exactly when
it is the canonical decimal form of some `n < 2^32 - 1`. -/
def canonIdx (s : String) : Option Nat :=
  match strToNat s with
  | some n => if natToStr n = s ∧ n < 4294967295 then some n else none
  | none => none

theorem canonIdx_natToStr {n : Nat} (h : n < 4294967295) :
    canonIdx (natToStr n) = some n := by
  simp [canonIdx, strToNat_natToStr n, h]

theorem canonIdx_eq_some {s : String} {n : Nat} (h : canonIdx s = some n) :
    natToStr n = s ∧ n < 4294967295 := by
  unfold canonIdx at h
  cases hs : strToNat s with
  | none => simp [hs] at h
  | some m =>
    simp only [hs] at h
    split at h
    · next hm => cases h; exact hm
    · cases h

/-! ### JavaScript values

Joi schemas are carried around by the pipeline but never interpreted by
the code embedded here (route options only store them), so they are
modelled as opaque data. -/

/-- An opaque joi schema fragment (only ever stored, never interpreted). -/
structure JoiSchema where
  tag : Nat
deriving DecidableEq, Repr

/-- A JS `Error`, possibly decorated by `boom` (`isBoom`, `statusCode`). -/
structure JsErr where
  isBoom : Bool
  statusCode : Option Nat
  message : String
deriving DecidableEq, Repr

/-- An exposed API function: the callable (represented by its source
text, which is all `getParamNames` consumes) together with the metadata
properties mini-service reads off the function object
(`validate`, `responseSchema`, `validateResponse`, `hasBufferInput`,
`hasStreamInput`, `description`, `notes`).  A field is `none` when the
property is absent on the function. -/
structure ApiFn where
  src : String
  validate : Option (List JoiSchema) := none
  responseSchema : Option JoiSchema := none
  validateResponse : Option Bool := none
  hasBufferInput : Option Bool := none
  hasStreamInput : Option Bool := none
  description : Option String := none
  notes : Option String := none

/-- JS values: `undefined` is `none` at use sites (`JsU`); object
property values live in `Option JsVal` so that a present-but-undefined
property is representable. -/
inductive JsVal where
  | null : JsVal
  | bool (b : Bool) : JsVal
  | num (n : Int) : JsVal
  | str (s : String) : JsVal
  | arr (elems : List JsVal) : JsVal
  | obj (entries : List (String × Option JsVal)) : JsVal
  | func (f : ApiFn) : JsVal

/-- A JS value or `undefined`. -/
abbrev JsU := Option JsVal

/-- JS truthiness (`!!v`). -/
def truthy : JsU → Bool
  | none => false
  | some .null => false
  | some (.bool b) => b
  | some (.num n) => n ≠ 0
  | some (.str s) => s ≠ ""
  | some (.arr _) => true
  | some (.obj _) => true
  | some (.func _) => true

/-- JS `typeof v === 'object'` (true for `null`, arrays and plain
objects; false for functions and primitives). -/
def typeofIsObject : JsU → Bool
  | some .null => true
  | some (.arr _) => true
  | some (.obj _) => true
  | _ => false

/-- JS `Array.isArray(v)`. -/
def isJsArray : JsU → Bool
  | some (.arr _) => true
  | _ => false

/-- `isApi` from lib/utils.js (mini-service-utils, `src/unnamed/part_002`):
`apis => !!apis && typeof apis === 'object' && !Array.isArray(apis)`. -/
def isApi (apis : JsU) : Bool :=
  truthy apis && typeofIsObject apis && !isJsArray apis

/-- The entry list of an object value (empty for non-objects). -/
def objEntries : JsU → List (String × Option JsVal)
  | some (.obj l) => l
  | _ => []

/-! ### JavaScript objects as ordered association lists

`jsSet` is property assignment (`o[k] = v`): an existing key keeps its
position and gets the new value, a new key is appended.  `jsGet` is
property access, `undefined` (`none`) for a missing key.  `jsKeys` is
`Object.keys` order: canonical array-index keys ascending, then the
remaining keys in insertion order. -/

/-- Property assignment `o[k] = v`. -/
def jsSet {α : Type} (o : List (String × Option α)) (k : String) (v : Option α) :
    List (String × Option α) :=
  if o.any (fun kv => kv.1 = k) then
    o.map (fun kv => if kv.1 = k then (k, v) else kv)
  else o ++ [(k, v)]

/-- Property access `o[k]` (`undefined` when the key is missing). -/
def jsGet {α : Type} (o : List (String × Option α)) (k : String) : Option α :=
  match o.find? (fun kv => kv.1 = k) with
  | some kv => kv.2
  | none => none

/-- `Object.keys o` in JS iteration order. -/
def jsKeys {α : Type} (o : List (String × Option α)) : List String :=
  let ks := o.map Prod.fst
  ((ks.filterMap canonIdx).insertionSort (· ≤ ·)).map natToStr
    ++ ks.filter (fun k => (canonIdx k).isNone)

/-! ### Parameter marshalling -/

/-- JS array indexing `a[i]` (`undefined` when out of bounds and for an
element that is itself `undefined`). -/
def jsIndex {α : Type} (a : List (Option α)) (i : Nat) : Option α :=
  (a.get? i).getD none

/-- `arrayToObj` from lib/utils.js (mini-service-utils,
`src/unnamed/part_002`): assign `array[i]` to property `properties[i]`,
then keep every remaining `array[i]` under the integer-string key `i`. -/
def arrayToObj {α : Type} (array : List (Option α)) (properties : List String) :
    List (String × Option α) :=
  let obj := properties.enum.foldl
    (fun obj iprop => jsSet obj iprop.2 (jsIndex array iprop.1)) []
  (List.range' properties.length (array.length - properties.length)).foldl
    (fun obj i => jsSet obj (natToStr i) (jsIndex array i)) obj

/-- Positional argument reconstruction of the HTTP handler
(`src/lib/transports/http/register-route.js`, lines 81-82):
`args.push(...params.map(prop => payload[prop]))` followed by
`args.push(...Object.keys(payload).filter(p => !params.includes(p)).map(prop => payload[prop]))`. -/
def restArgs {α : Type} (payload : List (String × Option α)) (params : List String) :
    List (Option α) :=
  params.map (jsGet payload)
    ++ ((jsKeys payload).filter (fun p => !params.contains p)).map (jsGet payload)

/-! ### Signature introspection: `getParamNames`

From lib/utils.js (mini-service-utils, `src/unnamed/part_002`):

```js
const declaration = (fn || '').toString()
if (/^\s*[^(]+?\s*=>/.test(declaration)) {
  return [declaration.match(/^\s*(\S+)\s*=>/)[1]]
}
if (/^[^(]*?\(/.test(declaration)) {
  const params = declaration.match(/^[^(]*\(((?:.+?, )*?.*?)\)/)[1].split(', ')
    .filter(p => p)
    .map(p => p.replace(/\s*=.+/, ''))
  for (const p of params) {
    if (p.startsWith('...')) throw new Error(`unsupported function ${fn}: rest parameter ${p}`)
  }
  return params
}
throw new Error(`unsupported function ${fn}`)
```

The embedding works on the declaration string (the result of
`(fn || '').toString()`); each regex is implemented by the match the JS
engine finds on it, as derived below.

* `/^\s*[^(]+?\s*=>/.test(s)` holds exactly when `"=>"` occurs at some
  position `p ≥ 1` of `s` with no `'('` among the first `p` characters
  (the lazy `[^(]+?` also matches whitespace, so `^\s*` may be taken
  empty).
* In `/^\s*(\S+)\s*=>/`, `^\s*` must end at the first non-space
  character `w` (`\S+` cannot start on a space), the greedy `(\S+)`
  first tries the whole non-space run `s[w..r)` and backtracks, so the
  capture ends at the largest `j ≤ r` such that `"=>"` follows — either
  directly at `j < r`, or after the whitespace run when `j = r`.
* `/^[^(]*?\(/.test(s)` holds exactly when `s` contains `'('`.
* In `/^[^(]*\(((?:.+?, )*?.*?)\)/`, the greedy `[^(]*` stops at the
  first `'('`; `.` does not match a newline, and the lazy capture ends
  at the earliest possible `')'`, so the capture is the text after the
  first `'('` up to the first `')'` of that line — no match (a runtime
  `TypeError` on `[1]`) when that line has no `')'`.
* In `p.replace(/\s*=.+/, '')` the first match starts at the first `'='
  that has at least one following character, extended left over the
  whitespace run immediately before it, and runs to the end of the
  (newline-free) token; the replacement keeps the text before it.
-/

/-- JS `\s` on ASCII: space and the control range TAB..CR. -/
def isWsChar (c : Char) : Bool := c = ' ' ∨ (9 ≤ c.toNat ∧ c.toNat ≤ 13)

/-- `leadsWith pat l`: `pat` is an initial segment of `l`. -/
def leadsWith : List Char → List Char → Bool
  | [], _ => true
  | _ :: _, [] => false
  | a :: as, b :: bs => a = b && leadsWith as bs

/-- Index of the first occurrence of `pat` in `l`. -/
def findSub (pat : List Char) : List Char → Option Nat
  | [] => if leadsWith pat [] then some 0 else none
  | c :: rest =>
    if leadsWith pat (c :: rest) then some 0
    else (findSub pat rest).map (· + 1)

/-- `l` contains an occurrence of `pat`. -/
def hasSub (pat l : List Char) : Bool := (findSub pat l).isSome

theorem leadsWith_length {pat l : List Char} (h : leadsWith pat l = true) :
    pat.length ≤ l.length := by
  induction pat generalizing l with
  | nil => simp
  | cons a as ih =>
    cases l with
    | nil => simp [leadsWith] at h
    | cons b bs =>
      simp only [leadsWith, Bool.and_eq_true] at h
      simpa [Nat.succ_le_succ_iff] using ih h.2

theorem findSub_drop {pat l : List Char} {p : Nat} (h : findSub pat l = some p) :
    leadsWith pat (l.drop p) = true ∧ p ≤ l.length := by
  induction l generalizing p with
  | nil =>
    simp only [findSub] at h
    split at h
    · next hl => cases h; exact ⟨hl, by simp⟩
    · cases h
  | cons c rest ih =>
    simp only [findSub] at h
    split at h
    · next hl => cases h; exact ⟨hl, by simp⟩
    · next =>
      cases hr : findSub pat rest with
      | none => rw [hr] at h; cases h
      | some q =>
        rw [hr] at h
        cases h
        have := ih hr
        exact ⟨this.1, by simpa [Nat.succ_le_succ_iff] using this.2⟩

theorem findSub_bound {pat l : List Char} {p : Nat} (_hne : pat ≠ [])
    (h : findSub pat l = some p) : p + pat.length ≤ l.length := by
  have ⟨h1, h2⟩ := findSub_drop h
  have := leadsWith_length h1
  simp only [List.length_drop] at this
  omega

/-- The separator of JS `split(', ')` as used by `getParamNames`. -/
def commaSp : List Char := [',', ' ']

/-- JS `s.split(', ')`, fuelled recursion (so that the kernel can
evaluate it); `splitCommaSp` supplies sufficient fuel. -/
def splitCommaSpAux (fuel : Nat) (l : List Char) : List (List Char) :=
  match fuel with
  | 0 => [l]
  | f + 1 =>
    match findSub commaSp l with
    | none => [l]
    | some p => l.take p :: splitCommaSpAux f (l.drop (p + 2))

/-- JS `s.split(', ')`: split on every occurrence of the separator. -/
def splitCommaSp (l : List Char) : List (List Char) := splitCommaSpAux l.length l

theorem splitCommaSpAux_congr :
    ∀ f₁ f₂ l, l.length ≤ f₁ → l.length ≤ f₂ →
      splitCommaSpAux f₁ l = splitCommaSpAux f₂ l := by
  intro f₁
  induction f₁ with
  | zero =>
    intro f₂ l h1 _
    have : l = [] := List.length_eq_zero.mp (by omega)
    subst this
    cases f₂ <;> simp [splitCommaSpAux, findSub, leadsWith, commaSp]
  | succ f ih =>
    intro f₂ l h1 h2
    cases f₂ with
    | zero =>
      have : l = [] := List.length_eq_zero.mp (by omega)
      subst this
      simp [splitCommaSpAux, findSub, leadsWith, commaSp]
    | succ g =>
      cases hf : findSub commaSp l with
      | none => simp only [splitCommaSpAux, hf]
      | some p =>
        simp only [splitCommaSpAux, hf]
        have hb := findSub_bound (by decide) hf
        simp only [commaSp, List.length_cons, List.length_nil] at hb
        have hlen : (l.drop (p + 2)).length ≤ f := by
          simp only [List.length_drop]; omega
        have hlen2 : (l.drop (p + 2)).length ≤ g := by
          simp only [List.length_drop]; omega
        rw [ih g _ hlen hlen2]

theorem splitCommaSp_eq (l : List Char) :
    splitCommaSp l =
      match findSub commaSp l with
      | none => [l]
      | some p => l.take p :: splitCommaSp (l.drop (p + 2)) := by
  show splitCommaSpAux l.length l = _
  cases hl : l.length with
  | zero =>
    have : l = [] := List.length_eq_zero.mp hl
    subst this
    simp [splitCommaSpAux, findSub, leadsWith, commaSp]
  | succ m =>
    cases hf : findSub commaSp l with
    | none => simp only [splitCommaSpAux, hf]
    | some p =>
      simp only [splitCommaSpAux, hf]
      have hb := findSub_bound (by decide) hf
      simp only [commaSp, List.length_cons, List.length_nil] at hb
      rw [splitCommaSpAux_congr m (l.drop (p + 2)).length _
        (by simp only [List.length_drop]; omega) (by omega)]
      rfl

/-- JS `p.replace(/\s*=.+/, '')`: strip a default-value expression
(assuming the token is newline-free, which every `parenCapture` token
is). -/
def stripDefault (l : List Char) : List Char :=
  match findSub ['='] l with
  | some e =>
    if e + 2 ≤ l.length then ((l.take e).reverse.dropWhile isWsChar).reverse
    else l
  | none => l

/-- `/^\s*[^(]+?\s*=>/.test` : an occurrence of `"=>"` at position
`≥ 1` with no `'('` before it. -/
def test1Aux : List Char → Bool
  | [] => false
  | c :: rest =>
    if c = '(' then false
    else leadsWith ['=', '>'] rest || test1Aux rest

/-- `"=>"` occurs at position `j` of `l`. -/
def arrowAt (l : List Char) (j : Nat) : Bool := leadsWith ['=', '>'] (l.drop j)

/-- Length of the leading whitespace run. -/
def wsRun (l : List Char) : Nat := (l.takeWhile isWsChar).length

/-- Length of the leading non-whitespace run. -/
def nonWsRun (l : List Char) : Nat := (l.takeWhile (fun c => ¬ isWsChar c)).length

/-- Largest `j` with `w < j ≤ bound` such that `"=>"` occurs at `j`
(the backtracking positions of the greedy `(\S+)`). -/
def lastArrow (l : List Char) (w : Nat) : Nat → Option Nat
  | 0 => none
  | j + 1 =>
    if j + 1 ≤ w then none
    else if arrowAt l (j + 1) then some (j + 1)
    else lastArrow l w j

/-- The capture of `declaration.match(/^\s*(\S+)\s*=>/)`. -/
def match1 (l : List Char) : Option (List Char) :=
  let w := wsRun l
  let rlen := nonWsRun (l.drop w)
  if rlen = 0 then none
  else
    let r := w + rlen
    let t := r + wsRun (l.drop r)
    if arrowAt l t then some ((l.take r).drop w)
    else
      match lastArrow l w (r - 1) with
      | some j => some ((l.take j).drop w)
      | none => none

/-- Suffix after the first occurrence of `c` (empty when absent). -/
def dropThrough (c : Char) : List Char → List Char
  | [] => []
  | x :: rest => if x = c then rest else dropThrough c rest

/-- The capture of `declaration.match(/^[^(]*\(((?:.+?, )*?.*?)\)/)`:
text after the first `'('` up to the first `')'` on the same line,
`none` (JS: a null match, hence a `TypeError` on `[1]`) when that line
has no `')'`. -/
def parenCapture (l : List Char) : Option (List Char) :=
  if l.any (fun c => c = '(') then
    let line := (dropThrough '(' l).takeWhile (fun c => c ≠ '\n' ∧ c ≠ '\r')
    if line.any (fun c => c = ')') then
      some (line.takeWhile (fun c => c ≠ ')'))
    else none
  else none

/-- `capture.split(', ').filter(p => p).map(p => p.replace(/\s*=.+/, ''))`. -/
def parsedTokens (l : List Char) : Option (List (List Char)) :=
  (parenCapture l).map
    (fun cap => ((splitCommaSp cap).filter (fun t => t ≠ [])).map stripDefault)

/-- The rest-parameter marker `"..."`. -/
def restDots : List Char := ['.', '.', '.']

/-- `getParamNames` from lib/utils.js (mini-service-utils,
`src/unnamed/part_002`), acting on the declaration string
`(fn || '').toString()`.  `Except.error` models a thrown error. -/
def getParamNames (declaration : String) : Except String (List String) :=
  let l := declaration.data
  if test1Aux l then
    match match1 l with
    | some cap => .ok [String.mk cap]
    | none => .error "TypeError: declaration.match(...) is null"
  else if l.any (fun c => c = '(') then
    match parsedTokens l with
    | none => .error "TypeError: declaration.match(...) is null"
    | some toks =>
      match toks.find? (fun t => leadsWith restDots t) with
      | some p =>
        .error ("unsupported function " ++ declaration
          ++ ": rest parameter " ++ String.mk p)
      | none => .ok (toks.map String.mk)
  else .error ("unsupported function " ++ declaration)

example : getParamNames "" = .error "unsupported function " := by decide
example : getParamNames "[object Object]" =
    .error "unsupported function [object Object]" := by decide
example : getParamNames "function () \x7b\x7d" = .ok [] := by decide
example : getParamNames "() => \x7b\x7d" = .ok [] := by decide
example : getParamNames "a => \x7b\x7d" = .ok ["a"] := by decide
example : getParamNames "function named (a, b, c) \x7b\x7d" =
    .ok ["a", "b", "c"] := by decide
example : getParamNames "(a, b, c = false) => \x7b\x7d" =
    .ok ["a", "b", "c"] := by decide
example : getParamNames "(\x7bc: \x7bd\x7d\x7d) => \x7b\x7d" =
    .ok ["\x7bc: \x7bd\x7d\x7d"] := by decide
example : getParamNames "([a,b]) => \x7b\x7d" = .ok ["[a,b]"] := by decide
example : (getParamNames "(...args) => \x7b\x7d").isOk = false := by decide

/-! ### `validateParams`

From lib/utils.js (mini-service-utils, `src/unnamed/part_002`):

```js
exports.validateParams = (values, schema, id, expected) => {
  if (Object.keys(values).length > expected) {
    return new Error(`API ${id} must contain at most ${expected} parameters`)
  }
  return schema.validate(values).error
}
```

The joi schema argument is modelled by its validation behaviour: a
function from the named-value object to `schema.validate(values).error`
(`none` when the values are valid). -/

/-- A joi object schema as used by `validateParams`, modelled by its
validation result on a named-value object. -/
abbrev SchemaFun := List (String × JsU) → Option JsErr

/-- A plain `new Error(msg)`. -/
def mkError (msg : String) : JsErr :=
  { isBoom := false, statusCode := none, message := msg }

/-- `validateParams` from lib/utils.js (mini-service-utils,
`src/unnamed/part_002`). -/
def validateParams (values : List (String × JsU)) (schema : SchemaFun)
    (id : String) (expected : Nat) : Option JsErr :=
  if (jsKeys values).length > expected then
    some (mkError ("API " ++ id ++ " must contain at most "
      ++ toString expected ++ " parameters"))
  else schema values

/-! ### `extractApis` (src/lib/utils.js)

```js
exports.extractApis = async opts => {
  const options = Object.assign({ logger: getLogger() }, opts)
  const { logger } = options
  const descriptors = []
  const { groups, groupOpts } = extractGroups(opts)
  for (const { name: group, init } of groups) {
    const apis = await init(Object.assign({ logger }, groupOpts[group]))
    if (!isApi(apis)) continue
    for (const id in apis) {
      const api = apis[id]
      joi.assert(api, exports.apiSchema, `Invalid exposed API ${id} (from group ${group}):`)
      const responseSchema = extractValidate(id, apis, groupOpts[group], 'responseSchema')
      descriptors.push({ group, id, params: getParamNames(api),
        path: `${exports.basePath}/${group}/${id}`,
        hasBufferInput: api.hasBufferInput || false,
        hasStreamInput: api.hasStreamInput || false,
        payloadSchema: extractValidate(id, apis, groupOpts[group], 'validate'),
        responseSchema,
        validateResponse: (responseSchema && api.validateResponse) || false,
        api })
    }
  }
  const exposed = descriptors.map(purge)
  const checksum = crc32(JSON.stringify(exposed))
  return { descriptors, exposed, checksum, logger }
}
```

The group list and per-group options produced by the external
`extractGroups` (mini-service-utils, configuration validation only) are
taken as inputs; the logger produced by `getLogger()` is an input as
well.  An `init` function is modelled as a function from its (merged)
options object to `Except JsErr JsU` — `Except.error` covering both a
rejected promise and a synchronous throw (the `await` unifies them) —
and `extractApis` additionally returns the trace of invoked group
names, which is the observable initialization order. -/

/-- A declared API group: a name and an async-capable `init`
(named `ApiGroup` because Mathlib already owns `Group`). -/
structure ApiGroup where
  name : String
  init : JsU → Except JsErr JsU

/-- An internal descriptor as pushed by `extractApis`. -/
structure Descriptor where
  group : String
  id : String
  params : List String
  path : String
  hasBufferInput : Bool
  hasStreamInput : Bool
  payloadSchema : Option (List JoiSchema)
  responseSchema : Option JoiSchema
  validateResponse : Bool
  api : ApiFn

/-- `purge` from src/lib/utils.js: the public projection of a
descriptor. -/
structure ExposedAPI where
  group : String
  id : String
  params : List String
  path : String
  hasBufferInput : Bool
  hasStreamInput : Bool
deriving DecidableEq, Repr

/-- `purge` from src/lib/utils.js (lines 62-69). -/
def purge (d : Descriptor) : ExposedAPI :=
  { group := d.group, id := d.id, params := d.params, path := d.path,
    hasBufferInput := d.hasBufferInput, hasStreamInput := d.hasStreamInput }

/-- `exports.basePath` from src/lib/utils.js. -/
def basePath : String := "/api"

/-- `Object.assign({ logger }, groupOpts[group])`: a fresh object with
the logger, then the group options' own entries assigned over it. -/
def mergeOpts (logger : JsU) (o : JsU) : JsU :=
  some (.obj ((objEntries o).foldl (fun acc kv => jsSet acc kv.1 kv.2)
    [("logger", logger)]))

/-- `joi.assert(api, exports.apiSchema, ...)` (src/lib/utils.js line 137):
the asserted value must be a function, and `apiSchema`'s
`.with('validateResponse', 'responseSchema')` requires `responseSchema`
whenever `validateResponse` is present.  The typed `ApiFn` fields
discharge the remaining key checks of `apiSchema` by construction. -/
def assertApi (group id : String) (v : JsU) : Except JsErr ApiFn :=
  match v with
  | some (.func f) =>
    if f.validateResponse.isSome ∧ f.responseSchema.isNone then
      .error (mkError ("Invalid exposed API " ++ id ++ " (from group "
        ++ group ++ "): \"validateResponse\" missing required peer \"responseSchema\""))
    else .ok f
  | _ =>
    .error (mkError ("Invalid exposed API " ++ id ++ " (from group "
      ++ group ++ "): \"value\" must be a Function"))

/-- Modelled from the spec: `extractValidate(id, apis, groupOpts[group],
prop)` comes from mini-service-utils, whose source for this helper is
not in the repository; per the spec's data model the declared
per-parameter validation schemas and response schema are the `validate`
and `responseSchema` properties attached to the API function, so the
helper is modelled as reading that property off the function. -/
def extractValidateProp (f : ApiFn) : Option (List JoiSchema) × Option JoiSchema :=
  (f.validate, f.responseSchema)

/-- The body of the inner `for (const id in apis)` loop of
`extractApis`, over the keys of the API map in JS iteration order. -/
def buildDescriptors (group : String) (entries : List (String × JsU)) :
    List String → Except JsErr (List Descriptor)
  | [] => .ok []
  | id :: rest =>
    match assertApi group id (jsGet entries id) with
    | .error e => .error e
    | .ok f =>
      match getParamNames f.src with
      | .error msg => .error (mkError msg)
      | .ok params =>
        let responseSchema := (extractValidateProp f).2
        let d : Descriptor :=
          { group := group, id := id, params := params,
            path := basePath ++ "/" ++ group ++ "/" ++ id,
            hasBufferInput := f.hasBufferInput.getD false,
            hasStreamInput := f.hasStreamInput.getD false,
            payloadSchema := (extractValidateProp f).1,
            responseSchema := responseSchema,
            validateResponse := responseSchema.isSome && f.validateResponse.getD false,
            api := f }
        match buildDescriptors group entries rest with
        | .error e => .error e
        | .ok ds => .ok (d :: ds)

/-- Process one resolved `init` result: skip non-API values
(`if (!isApi(apis)) continue`), otherwise build one descriptor per key. -/
def processApis (group : String) (apis : JsU) : Except JsErr (List Descriptor) :=
  buildDescriptors group (objEntries apis) (jsKeys (objEntries apis))

/-- The group loop of `extractApis`: strictly sequential, fail-fast.
The first component is the trace of group names whose `init` was
invoked, in invocation order. -/
def extractLoop (logger : JsU) (groupOpts : String → JsU) :
    List ApiGroup → List String × Except JsErr (List Descriptor)
  | [] => ([], .ok [])
  | g :: rest =>
    match g.init (mergeOpts logger (groupOpts g.name)) with
    | .error e => ([g.name], .error e)
    | .ok apis =>
      match (if isApi apis then processApis g.name apis else .ok []) with
      | .error e => ([g.name], .error e)
      | .ok ds =>
        let (t, r) := extractLoop logger groupOpts rest
        (g.name :: t,
          match r with
          | .error e => .error e
          | .ok ds2 => .ok (ds ++ ds2))

/-- The result record of `extractApis` (`logger` omitted: it is the
input logger unchanged). -/
structure ExposedAPIList where
  descriptors : List Descriptor
  exposed : List ExposedAPI
  checksum : Nat

/-! ### The exposure checksum: `crc32(JSON.stringify(exposed))` -/

/-- JSON string escaping (`JSON.stringify` on a string value), without
the surrounding quotes. -/
def jsonEscapeChar (c : Char) : List Char :=
  if c = '"' then ['\\', '"']
  else if c = '\\' then ['\\', '\\']
  else if c = '\n' then ['\\', 'n']
  else if c = '\r' then ['\\', 'r']
  else if c = '\t' then ['\\', 't']
  else if c.toNat = 8 then ['\\', 'b']
  else if c.toNat = 12 then ['\\', 'f']
  else if c.toNat < 32 then
    ['\\', 'u', '0', '0', digitChar10 (c.toNat / 16),
      (if c.toNat % 16 < 10 then digitChar10 (c.toNat % 16)
       else Char.ofNat (97 + (c.toNat % 16 - 10)))]
  else [c]

/-- `JSON.stringify` of a string. -/
def jsonStr (s : String) : String :=
  ⟨'"' :: (s.data.foldr (fun c acc => jsonEscapeChar c ++ acc) ['"'])⟩

/-- `JSON.stringify` of a `purge`d descriptor: a plain object whose key
order is the creation order of `purge`. -/
def jsonOfExposedAPI (a : ExposedAPI) : String :=
  "\x7b\"group\":" ++ jsonStr a.group
    ++ ",\"id\":" ++ jsonStr a.id
    ++ ",\"params\":[" ++ String.intercalate "," (a.params.map jsonStr)
    ++ "],\"path\":" ++ jsonStr a.path
    ++ ",\"hasBufferInput\":" ++ (if a.hasBufferInput then "true" else "false")
    ++ ",\"hasStreamInput\":" ++ (if a.hasStreamInput then "true" else "false")
    ++ "\x7d"

/-- `JSON.stringify(exposed)` for the exposed list. -/
def jsonOfExposed (l : List ExposedAPI) : String :=
  "[" ++ String.intercalate "," (l.map jsonOfExposedAPI) ++ "]"

/-- One bit step of the reflected CRC-32 (polynomial `0xEDB88320`). -/
def crc32Shift : Nat → Nat → Nat
  | c, 0 => c
  | c, n + 1 => crc32Shift (if c % 2 = 1 then (c / 2) ^^^ 0xEDB88320 else c / 2) n

/-- The CRC-32 running state after folding a byte list into state `c`. -/
def crc32Fold (c : Nat) (bs : List Nat) : Nat :=
  bs.foldl (fun c b => crc32Shift (c ^^^ b % 256) 8) c

/-- Standard CRC-32 (as computed by the `crc32` npm package) over a byte
list. -/
def crc32Bytes (bs : List Nat) : Nat :=
  crc32Fold 0xFFFFFFFF bs ^^^ 0xFFFFFFFF

theorem crc32Fold_append (c : Nat) (l₁ l₂ : List Nat) :
    crc32Fold c (l₁ ++ l₂) = crc32Fold (crc32Fold c l₁) l₂ :=
  List.foldl_append _ _ _ _

/-- CRC-32 of an ASCII string (every string serialized here is ASCII,
so UTF-8 bytes coincide with the character codes). -/
def crc32Str (s : String) : Nat := crc32Bytes (s.data.map Char.toNat)

/-- The checksum attached to an exposed list
(src/lib/utils.js line 157: `crc32(JSON.stringify(exposed))`; the hex
rendering of the 32-bit value by the npm package is omitted). -/
def checksumOfExposed (l : List ExposedAPI) : Nat := crc32Str (jsonOfExposed l)

/-- `extractApis`: run the group loop, then
`exposed = descriptors.map(purge)` and
`checksum = crc32(JSON.stringify(exposed))`.  The first component is
the trace of invoked group inits, in order. -/
def extractApis (logger : JsU) (groupOpts : String → JsU) (groups : List ApiGroup) :
    List String × Except JsErr ExposedAPIList :=
  let (t, r) := extractLoop logger groupOpts groups
  (t, match r with
    | .error e => .error e
    | .ok descriptors =>
      .ok { descriptors := descriptors,
            exposed := descriptors.map purge,
            checksum := checksumOfExposed (descriptors.map purge) })

/-! ### HTTP route registration (src/lib/transports/http/register-route.js)

```js
const options = { timeout: { socket: false }, tags: ['api'],
  notes: api.notes, description: api.description }
const parseAndValidate = !hasStreamInput && !hasBufferInput
if (params.length) {
  options.payload = { timeout: false, maxBytes: 1024 * 1024 * 1024,
    parse: parseAndValidate, output: hasStreamInput ? 'stream' : 'data' }
  if (parseAndValidate && payloadSchema) {
    options.validate = { payload:
      joi.object(arrayToObj(payloadSchema, params)).unknown(false).label(id),
      failAction: ... }
  }
}
if (parseAndValidate && responseSchema) {
  options.response = { schema: responseSchema.label(`${id}Result`),
    failAction: ..., sample: validateResponse ? 100 : 0 }
}
server.route({ method: params.length ? 'POST' : 'GET', path, options,
  handler: async (req, h) => { ... } })
```
-/

/-- HTTP methods used by the route registration. -/
inductive Method where
  | GET : Method
  | POST : Method
deriving DecidableEq, Repr

/-- `options.payload.output`. -/
inductive PayloadOutput where
  | stream : PayloadOutput
  | data : PayloadOutput
deriving DecidableEq, Repr

/-- `options.payload`. -/
structure PayloadOpts where
  timeout : Bool
  maxBytes : Nat
  parse : Bool
  output : PayloadOutput

/-- `options.validate` (the payload validation options): the joi object
schema built over `arrayToObj(payloadSchema, params)` with
`.unknown(false).label(id)`; the `failAction` message customization has
no bearing on the embedded claims and is omitted. -/
structure ValidatePayloadOpts where
  payloadFields : List (String × Option JoiSchema)
  unknown : Bool
  label : String

/-- `options.response`. -/
structure ResponseOpts where
  schema : JoiSchema
  label : String
  sample : Nat

/-- The request options of a registered route. -/
structure RouteOptions where
  socketTimeout : Bool
  payload : Option PayloadOpts
  validate : Option ValidatePayloadOpts
  response : Option ResponseOpts

/-- A registered route. -/
structure Route where
  method : Method
  path : String
  options : RouteOptions

/-- `const parseAndValidate = !hasStreamInput && !hasBufferInput`. -/
def parseAndValidate (d : Descriptor) : Bool :=
  !d.hasStreamInput && !d.hasBufferInput

/-- The route registered by register-route.js for a descriptor. -/
def registerRoute (d : Descriptor) : Route :=
  let pv := parseAndValidate d
  let payload : Option PayloadOpts :=
    if d.params.length ≠ 0 then
      some { timeout := false, maxBytes := 1024 * 1024 * 1024,
             parse := pv,
             output := if d.hasStreamInput then .stream else .data }
    else none
  let validate : Option ValidatePayloadOpts :=
    if d.params.length ≠ 0 then
      match d.payloadSchema with
      | some schemas =>
        if pv then
          some { payloadFields := arrayToObj (schemas.map some) d.params,
                 unknown := false, label := d.id }
        else none
      | none => none
    else none
  let response : Option ResponseOpts :=
    match d.responseSchema with
    | some schema =>
      if pv then
        some { schema := schema, label := d.id ++ "Result",
               sample := if d.validateResponse then 100 else 0 }
      else none
    | none => none
  { method := if d.params.length ≠ 0 then .POST else .GET,
    path := d.path,
    options := { socketTimeout := false, payload := payload,
                 validate := validate, response := response } }

/-- The argument list the route handler passes to the underlying API
function (register-route.js lines 73-83):

```js
const payload = req.payload || {}
const args = []
if (!parseAndValidate) {
  args.push(payload)
} else {
  args.push(...params.map(prop => payload[prop]))
  args.push(...Object.keys(payload).filter(p => !params.includes(p)).map(prop => payload[prop]))
}
```
-/
def handlerArgs (d : Descriptor) (reqPayload : JsU) : List JsU :=
  let payload := if truthy reqPayload then reqPayload else some (.obj [])
  if !parseAndValidate d then [payload]
  else restArgs (objEntries payload) d.params

/-- Modelled from the spec: `boomify(err, { statusCode, message })` is
the external `boom` package (not part of this repository); per the
spec's error-handling design it decorates a non-boom error with the
given wire status and message. -/
def boomify (_err : JsErr) (statusCode : Nat) (message : String) : JsErr :=
  { isBoom := true, statusCode := some statusCode, message := message }

/-- The `catch` clause of the route handler
(register-route.js lines 94-100):

```js
if (!err.isBoom) {
  throw boomify(err, { statusCode: 599, message: `Error while calling API ${id}: ${err.message}` })
}
throw err
```
-/
def handleApiError (id : String) (err : JsErr) : JsErr :=
  if !err.isBoom then
    boomify err 599 ("Error while calling API " ++ id ++ ": " ++ err.message)
  else err

/-! ### Claims about group initialization (C1, C7) -/

/-- A group whose `init` resolves and whose resolved value is processed
without error (skipped when not an API map). -/
def groupSucceeds (logger : JsU) (groupOpts : String → JsU) (g : ApiGroup) : Prop :=
  ∃ apis ds, g.init (mergeOpts logger (groupOpts g.name)) = .ok apis ∧
    (if isApi apis then processApis g.name apis else .ok []) = .ok ds

theorem extractLoop_ok (logger : JsU) (groupOpts : String → JsU) :
    ∀ groups : List ApiGroup,
      (∀ gp ∈ groups, groupSucceeds logger groupOpts gp) →
      ∃ ds, extractLoop logger groupOpts groups = (groups.map (·.name), .ok ds) := by
  intro groups
  induction groups with
  | nil => intro _; exact ⟨[], rfl⟩
  | cons g rest ih =>
    intro h
    obtain ⟨apis, ds, h1, h2⟩ := h g (List.mem_cons_self g rest)
    obtain ⟨ds2, hrest⟩ := ih (fun gp hgp => h gp (List.mem_cons_of_mem g hgp))
    refine ⟨ds ++ ds2, ?_⟩
    simp only [extractLoop, h1, h2, hrest, List.map_cons]

theorem extractLoop_fail (logger : JsU) (groupOpts : String → JsU) :
    ∀ (pre : List ApiGroup) (g : ApiGroup) (post : List ApiGroup) (e : JsErr),
      (∀ gp ∈ pre, groupSucceeds logger groupOpts gp) →
      g.init (mergeOpts logger (groupOpts g.name)) = .error e →
      extractLoop logger groupOpts (pre ++ g :: post) =
        (pre.map (·.name) ++ [g.name], .error e) := by
  intro pre
  induction pre with
  | nil =>
    intro g post e _ hg
    simp only [List.nil_append, extractLoop, hg, List.map_nil]
  | cons p rest ih =>
    intro g post e h hg
    obtain ⟨apis, ds, h1, h2⟩ := h p (List.mem_cons_self p rest)
    have hrest := ih g post e (fun gp hgp => h gp (List.mem_cons_of_mem p hgp)) hg
    simp only [List.cons_append, extractLoop, h1, h2, List.append_eq, hrest,
      List.map_cons]

/-- C1. Group initialization is strictly sequential in declaration
order with fail-fast abort: the trace of invoked `init`s recorded by
`extractApis` is exactly the declaration order, and when group `k`'s
`init` rejects (or synchronously throws), `extractApis` rejects with
that very error while the trace contains exactly groups `0..k-1` (each
once, in order) followed by group `k` — the groups after `k` are never
invoked. -/
theorem claim1_sequential_fail_fast :
    (∀ (logger : JsU) (groupOpts : String → JsU) (pre post : List ApiGroup)
      (g : ApiGroup) (e : JsErr),
      (∀ gp ∈ pre, groupSucceeds logger groupOpts gp) →
      g.init (mergeOpts logger (groupOpts g.name)) = .error e →
      extractApis logger groupOpts (pre ++ g :: post) =
        (pre.map (·.name) ++ [g.name], .error e)) ∧
    (∀ (logger : JsU) (groupOpts : String → JsU) (groups : List ApiGroup),
      (∀ gp ∈ groups, groupSucceeds logger groupOpts gp) →
      (extractApis logger groupOpts groups).1 = groups.map (·.name) ∧
      ∃ res, (extractApis logger groupOpts groups).2 = .ok res) := by
  constructor
  · intro logger groupOpts pre post g e hpre hg
    have h := extractLoop_fail logger groupOpts pre g post e hpre hg
    simp only [extractApis, h]
  · intro logger groupOpts groups h
    obtain ⟨ds, hloop⟩ := extractLoop_ok logger groupOpts groups h
    constructor
    · simp only [extractApis, hloop]
    · exact ⟨⟨ds, ds.map purge, checksumOfExposed (ds.map purge)⟩,
        by simp only [extractApis, hloop]⟩

def witGroup0 : ApiGroup := ⟨"group-0", fun _ => .ok none⟩
def witGroup1Fail : ApiGroup :=
  ⟨"group-1", fun _ => .error (mkError "group 1 failed to initialize")⟩
def witGroup2 : ApiGroup := ⟨"group-2", fun _ => .ok none⟩

theorem claim1_sequential_fail_fast_witness :
    extractApis none (fun _ => none) [witGroup0, witGroup1Fail, witGroup2] =
      (["group-0", "group-1"], .error (mkError "group 1 failed to initialize")) ∧
    (extractApis none (fun _ => none) [witGroup0, witGroup2]).1 =
      ["group-0", "group-2"] := by
  constructor
  · exact claim1_sequential_fail_fast.1 none (fun _ => none) [witGroup0] [witGroup2]
      witGroup1Fail (mkError "group 1 failed to initialize")
      (by
        intro gp hgp
        simp only [List.mem_singleton] at hgp
        subst hgp
        exact ⟨none, [], rfl, rfl⟩)
      rfl
  · exact (claim1_sequential_fail_fast.2 none (fun _ => none) [witGroup0, witGroup2]
      (by
        intro gp hgp
        simp only [List.mem_cons, List.mem_singleton, List.not_mem_nil, or_false] at hgp
        rcases hgp with h | h <;> (subst h; exact ⟨none, [], rfl, rfl⟩))).1

/-- C7. A group whose `init` resolves to a value that is not a plain
non-array object (a string, a boolean, an array, `null` or `undefined`)
is skipped without error: it contributes no descriptors, and
`extractApis` continues with the remaining groups exactly as if the
group were absent. -/
theorem claim7_non_object_init_skipped :
    (∀ (logger : JsU) (groupOpts : String → JsU) (name : String) (v : JsU)
      (rest : List ApiGroup),
      isApi v = false →
      extractApis logger groupOpts (⟨name, fun _ => .ok v⟩ :: rest) =
        (name :: (extractApis logger groupOpts rest).1,
         (extractApis logger groupOpts rest).2)) ∧
    (∀ s, isApi (some (.str s)) = false) ∧
    (∀ b, isApi (some (.bool b)) = false) ∧
    (∀ l, isApi (some (.arr l)) = false) ∧
    isApi (some .null) = false ∧
    isApi none = false := by
  refine ⟨?_, fun s => by simp [isApi, typeofIsObject],
    fun b => by cases b <;> rfl, fun l => by simp [isApi, isJsArray], rfl, rfl⟩
  intro logger groupOpts name v rest hv
  simp only [extractApis, extractLoop, hv, Bool.false_eq_true, if_false]
  cases hrest : extractLoop logger groupOpts rest with
  | mk t r => cases r <;> simp

theorem claim7_non_object_init_skipped_witness :
    extractApis none (fun _ => none)
      [⟨"init-string", fun _ => .ok (some (.str "initialized"))⟩] =
      (["init-string"],
       .ok { descriptors := [], exposed := [], checksum := 223132457 }) := by
  have h := claim7_non_object_init_skipped.1 none (fun _ => none) "init-string"
    (some (.str "initialized")) [] rfl
  refine h.trans ?_
  show (["init-string"],
      (extractApis none (fun _ => none) ([] : List ApiGroup)).2) = _
  have hck : checksumOfExposed ([] : List ExposedAPI) = 223132457 := by decide
  simp only [extractApis, extractLoop, List.map_nil, hck]

/-! ### Claims about the request handler and route options (C5, C10, C3) -/

/-- C5. When the underlying API function throws or rejects, an error
that already carries a wire status (a boom-annotated error) is
propagated unchanged; any other error is wrapped with status 599 and
the message `Error while calling API <id>: <original message>`. -/
theorem claim5_handler_error_wrapping :
    ∀ (id : String) (err : JsErr),
      (err.isBoom = true → handleApiError id err = err) ∧
      (err.isBoom = false →
        (handleApiError id err).isBoom = true ∧
        (handleApiError id err).statusCode = some 599 ∧
        (handleApiError id err).message =
          "Error while calling API " ++ id ++ ": " ++ err.message) := by
  intro id err
  constructor
  · intro h; simp [handleApiError, h]
  · intro h; simp [handleApiError, boomify, h]

theorem claim5_handler_error_wrapping_witness :
    handleApiError "boomError" ⟨true, some 401, "Custom authorization error"⟩ =
      ⟨true, some 401, "Custom authorization error"⟩ ∧
    (handleApiError "failing" (mkError "something went really bad")).statusCode
      = some 599 ∧
    (handleApiError "failing" (mkError "something went really bad")).message
      = "Error while calling API failing: something went really bad" := by
  refine ⟨(claim5_handler_error_wrapping "boomError" _).1 rfl, ?_, ?_⟩
  · exact ((claim5_handler_error_wrapping "failing" _).2 rfl).2.1
  · exact (((claim5_handler_error_wrapping "failing" _).2 rfl).2.2).trans (by decide)

/-- C10. A descriptor flagged `hasBufferInput` or `hasStreamInput` is
registered without payload-validation and without response-validation
options (so the result is never validated against `responseSchema`,
even when `validateResponse` is set), and its handler passes the raw
payload as the sole argument. -/
theorem claim10_buffer_stream_raw :
    ∀ d : Descriptor, (d.hasBufferInput = true ∨ d.hasStreamInput = true) →
      (registerRoute d).options.validate = none ∧
      (registerRoute d).options.response = none ∧
      ∀ p : JsU, truthy p = true → handlerArgs d p = [p] := by
  intro d h
  have hpv : parseAndValidate d = false := by
    rcases h with h | h <;> simp [parseAndValidate, h]
  refine ⟨?_, ?_, ?_⟩
  · simp only [registerRoute, hpv]
    split
    · cases d.payloadSchema <;> simp
    · rfl
  · simp only [registerRoute, hpv]
    cases d.responseSchema <;> simp
  · intro p hp
    simp [handlerArgs, hpv, hp]

def witBufDesc : Descriptor :=
  { group := "sample", id := "bufferHandling", params := ["buffer"],
    path := "/api/sample/bufferHandling", hasBufferInput := true,
    hasStreamInput := false, payloadSchema := some [⟨0⟩],
    responseSchema := some ⟨1⟩, validateResponse := true,
    api := { src := "buffer => \x7b\x7d" } }

theorem claim10_buffer_stream_raw_witness :
    (registerRoute witBufDesc).options.validate = none ∧
    (registerRoute witBufDesc).options.response = none ∧
    handlerArgs witBufDesc (some (.str "raw")) = [some (.str "raw")] := by
  have h := claim10_buffer_stream_raw witBufDesc (Or.inl rfl)
  exact ⟨h.1, h.2.1, h.2.2 (some (.str "raw")) rfl⟩

/-- C3. Method selection: a registered route uses the no-body retrieval
method GET exactly when the descriptor's extracted parameter-name list
is empty, and the body-carrying method POST whenever it is non-empty —
including descriptors whose parameter list comes from a function whose
only parameter is destructured or carries a default value, for which
`getParamNames` produces a non-empty list. -/
theorem claim3_method_selection :
    (∀ d : Descriptor,
      ((registerRoute d).method = .GET ↔ d.params = []) ∧
      ((registerRoute d).method = .POST ↔ d.params ≠ [])) ∧
    getParamNames "(\x7bc: \x7bd\x7d\x7d) => \x7b\x7d" = .ok ["\x7bc: \x7bd\x7d\x7d"] ∧
    getParamNames "(c = 10) => \x7b\x7d" = .ok ["c"] ∧
    (∀ d : Descriptor,
      d.params = ["\x7bc: \x7bd\x7d\x7d"] ∨ d.params = ["c"] →
      (registerRoute d).method = .POST) := by
  refine ⟨?_, by decide, by decide, ?_⟩
  · intro d
    cases hp : d.params with
    | nil => simp [registerRoute, hp]
    | cons a l => simp [registerRoute, hp]
  · intro d h
    rcases h with h | h <;> simp [registerRoute, h]

def witEmptyDesc : Descriptor :=
  { group := "sample", id := "ping", params := [],
    path := "/api/sample/ping", hasBufferInput := false,
    hasStreamInput := false, payloadSchema := none,
    responseSchema := none, validateResponse := false,
    api := { src := "() => \x7b\x7d" } }

def witDefaultDesc : Descriptor :=
  { group := "sample", id := "withDefault", params := ["c"],
    path := "/api/sample/withDefault", hasBufferInput := false,
    hasStreamInput := false, payloadSchema := none,
    responseSchema := none, validateResponse := false,
    api := { src := "(c = 10) => \x7b\x7d" } }

theorem claim3_method_selection_witness :
    (registerRoute witEmptyDesc).method = .GET ∧
    (registerRoute witDefaultDesc).method = .POST := by
  constructor
  · exact ((claim3_method_selection.1 witEmptyDesc).1).mpr rfl
  · exact claim3_method_selection.2.2.2 witDefaultDesc (Or.inr rfl)

/-! ### Claim about `validateParams` (C6) -/

/-- C6. `validateParams` returns the count-mismatch error — naming the
API id and the expected count, and independent of (without invoking)
the schema — exactly when the named-value object has more keys than
the expected count; otherwise it returns the schema's validation
result. -/
theorem claim6_validation_count_guard :
    ∀ (values : List (String × JsU)) (schema : SchemaFun) (id : String)
      (expected : Nat),
      ((jsKeys values).length > expected →
        validateParams values schema id expected =
          some (mkError ("API " ++ id ++ " must contain at most "
            ++ toString expected ++ " parameters")) ∧
        ∀ schema' : SchemaFun,
          validateParams values schema' id expected =
            validateParams values schema id expected) ∧
      ((jsKeys values).length ≤ expected →
        validateParams values schema id expected = schema values) := by
  intro values schema id expected
  constructor
  · intro h
    constructor
    · simp [validateParams, h]
    · intro schema'
      simp [validateParams, h]
  · intro h
    have : ¬ (jsKeys values).length > expected := by omega
    simp [validateParams, this]

def witValues : List (String × JsU) :=
  [("a", some (.num 1)), ("b", some (.num 2)), ("c", some (.num 3))]

theorem claim6_validation_count_guard_witness :
    validateParams witValues (fun _ => none) "add" 2 =
      some (mkError "API add must contain at most 2 parameters") ∧
    validateParams witValues (fun _ => some (mkError "generic schema error")) "add" 2 =
      validateParams witValues (fun _ => none) "add" 2 := by
  have h := (claim6_validation_count_guard witValues (fun _ => none) "add" 2).1
    (by decide)
  exact ⟨h.1.trans (by decide), h.2 (fun _ => some (mkError "generic schema error"))⟩

/-! ### Claims about `getParamNames` (C8, C9) -/

theorem parenCapture_some_any {l cap : List Char}
    (h : parenCapture l = some cap) : l.any (fun c => c = '(') = true := by
  by_contra hh
  simp only [Bool.not_eq_true] at hh
  simp [parenCapture, hh] at h

/-- C8. `getParamNames` throws (returns an error) whenever the
declaration string matches neither function pattern — the stringified
form of every non-function-like value such as `null`, `undefined`,
plain objects or numbers — and whenever any parsed top-level parameter
token starts with `"..."` (a rest/variadic parameter). -/
theorem claim8_unsupported_signature_rejected :
    (∀ s : String, test1Aux s.data = false →
      s.data.any (fun c => c = '(') = false →
      getParamNames s = .error ("unsupported function " ++ s)) ∧
    (∀ (s : String) (toks : List (List Char)) (p : List Char),
      test1Aux s.data = false →
      parsedTokens s.data = some toks →
      p ∈ toks → leadsWith restDots p = true →
      ∃ msg, getParamNames s = .error msg) ∧
    getParamNames "" = .error "unsupported function " ∧
    getParamNames "null" = .error "unsupported function null" ∧
    getParamNames "[object Object]" =
      .error "unsupported function [object Object]" ∧
    getParamNames "(...args) => \x7b\x7d" =
      .error "unsupported function (...args) => \x7b\x7d: rest parameter ...args" := by
  refine ⟨?_, ?_, by decide, by decide, by decide, by decide⟩
  · intro s h1 h2
    simp [getParamNames, h1, h2]
  · intro s toks p h1 htoks hp hdots
    have hparen : s.data.any (fun c => c = '(') = true := by
      cases hc : parenCapture s.data with
      | none => simp [parsedTokens, hc] at htoks
      | some cap => exact parenCapture_some_any hc
    have hfind : (toks.find? (fun t => leadsWith restDots t)).isSome := by
      rw [List.find?_isSome]
      exact ⟨p, hp, hdots⟩
    cases hf : toks.find? (fun t => leadsWith restDots t) with
    | none => rw [hf] at hfind; simp at hfind
    | some q =>
      refine ⟨"unsupported function " ++ s ++ ": rest parameter " ++ String.mk q, ?_⟩
      simp [getParamNames, h1, hparen, htoks, hf]

theorem claim8_unsupported_signature_rejected_witness :
    getParamNames "function" = .error "unsupported function function" ∧
    (∃ msg, getParamNames "(a, ...rest) => \x7b\x7d" = .error msg) := by
  constructor
  · exact claim8_unsupported_signature_rejected.1 "function" (by decide) (by decide)
  · exact claim8_unsupported_signature_rejected.2.1 "(a, ...rest) => \x7b\x7d"
      [['a'], ['.', '.', '.', 'r', 'e', 's', 't']]
      ['.', '.', '.', 'r', 'e', 's', 't']
      (by decide) (by decide) (by decide) (by decide)

/-- C9 fails as stated: the default-valued single-parameter form
`(a = f(1, 2)) => {}` declares one parameter, but `getParamNames`
returns two entries (the default expression's `", "` and `")"` defeat
the splitting regex), not the single stripped name `["a"]`. -/
theorem claim9_param_naming_counterexample :
    getParamNames "(a = f(1, 2)) => \x7b\x7d" = .ok ["a", "2"] ∧
    (["a", "2"] : List String).length ≠ 1 := by
  exact ⟨by decide, by decide⟩

theorem leadsWith_append_self (p u : List Char) : leadsWith p (p ++ u) = true := by
  induction p with
  | nil => rfl
  | cons a as ih => simp [leadsWith, ih]

theorem hasSub_cons {pat : List Char} {c : Char} {l : List Char}
    (h : hasSub pat (c :: l) = false) : hasSub pat l = false := by
  unfold hasSub findSub at h
  split at h
  · simp at h
  · cases hf : findSub pat l with
    | none => simp [hasSub, hf]
    | some q => rw [hf] at h; simp at h

theorem findSub_commaSp_append (u : List Char) :
    ∀ t : List Char, hasSub commaSp t = false →
      findSub commaSp (t ++ commaSp ++ u) = some t.length := by
  intro t
  induction t with
  | nil =>
    intro _
    simp only [List.nil_append]
    show findSub commaSp (',' :: ' ' :: u) = some 0
    unfold findSub
    rw [if_pos (by simp [commaSp, leadsWith])]
  | cons c t' ih =>
    intro h
    have hhead : leadsWith commaSp ((c :: t') ++ commaSp ++ u) = false := by
      by_contra hcon
      simp only [Bool.not_eq_false] at hcon
      have hc : (',' : Char) = c ∧ leadsWith [' '] (t' ++ commaSp ++ u) = true := by
        simpa [leadsWith, commaSp, Bool.and_eq_true] using hcon
      cases t' with
      | nil => simp [leadsWith, commaSp] at hc
      | cons d t'' =>
        have hd : (' ' : Char) = d := by
          have := hc.2
          simp only [List.cons_append, leadsWith, Bool.and_eq_true,
            decide_eq_true_eq] at this
          exact this.1
        have hsub : hasSub commaSp (c :: d :: t'') = true := by
          rw [← hc.1, ← hd]
          simp [hasSub, findSub, leadsWith, commaSp]
        rw [h] at hsub
        cases hsub
    have ht' := ih (hasSub_cons h)
    show findSub commaSp (c :: (t' ++ commaSp ++ u)) = some (t'.length + 1)
    unfold findSub
    rw [if_neg (by rw [show c :: (t' ++ commaSp ++ u) = (c :: t') ++ commaSp ++ u from rfl, hhead]; simp)]
    rw [ht']
    rfl

theorem intercalate_cons₂ (sep a b : List Char) (l : List (List Char)) :
    List.intercalate sep (a :: b :: l) = a ++ sep ++ List.intercalate sep (b :: l) := by
  simp [List.intercalate, List.intersperse, List.append_assoc]

theorem splitCommaSp_intercalate :
    ∀ toks : List (List Char), toks ≠ [] →
      (∀ t ∈ toks, hasSub commaSp t = false) →
      splitCommaSp (List.intercalate commaSp toks) = toks := by
  intro toks
  induction toks with
  | nil => intro h; exact absurd rfl h
  | cons t rest ih =>
    intro _ h
    cases rest with
    | nil =>
      have ht : hasSub commaSp t = false := h t (List.mem_cons_self t [])
      have hf : findSub commaSp t = none := by
        unfold hasSub at ht
        cases hfs : findSub commaSp t with
        | none => rfl
        | some p => rw [hfs] at ht; cases ht
      rw [show List.intercalate commaSp [t] = t by simp [List.intercalate, List.intersperse]]
      rw [splitCommaSp_eq, hf]
    | cons t2 rest2 =>
      have ht : hasSub commaSp t = false := h t (List.mem_cons_self t _)
      rw [intercalate_cons₂]
      rw [splitCommaSp_eq, findSub_commaSp_append _ t ht]
      show (t ++ commaSp ++ List.intercalate commaSp (t2 :: rest2)).take t.length ::
          splitCommaSp ((t ++ commaSp
            ++ List.intercalate commaSp (t2 :: rest2)).drop (t.length + 2)) =
          t :: t2 :: rest2
      have htake : (t ++ commaSp ++ List.intercalate commaSp (t2 :: rest2)).take t.length = t := by
        rw [List.append_assoc]
        exact List.take_left' rfl
      have hdrop : (t ++ commaSp ++ List.intercalate commaSp (t2 :: rest2)).drop (t.length + 2) =
          List.intercalate commaSp (t2 :: rest2) := by
        rw [List.append_assoc, ← List.append_assoc t commaSp]
        exact List.drop_left' (by simp [commaSp])
      rw [htake, hdrop, ih (by simp) (fun x hx => h x (List.mem_cons_of_mem t hx))]

/-- A parenthesised declaration built from parameter tokens, e.g.
`(a, b = 10) => {}`. -/
def parenDecl (toks : List (List Char)) : String :=
  ⟨'(' :: (List.intercalate commaSp toks
    ++ [')', ' ', '=', '>', ' ', '\x7b', '\x7d'])⟩

/-- A parenless arrow declaration, e.g. `name => {}`. -/
def arrowDecl (name : List Char) : String :=
  ⟨name ++ [' ', '=', '>', ' ', '\x7b', '\x7d']⟩

theorem mem_intercalate_commaSp {c : Char} :
    ∀ toks : List (List Char), c ∈ List.intercalate commaSp toks →
      (∃ t ∈ toks, c ∈ t) ∨ c ∈ commaSp := by
  intro toks
  induction toks with
  | nil =>
    intro h
    simp [List.intercalate, List.intersperse] at h
  | cons t rest ih =>
    cases rest with
    | nil =>
      intro h
      simp only [List.intercalate, List.intersperse, List.flatten,
        List.append_nil] at h
      exact Or.inl ⟨t, by simp, h⟩
    | cons t2 r2 =>
      intro h
      rw [intercalate_cons₂] at h
      simp only [List.mem_append] at h
      rcases h with (h | h) | h
      · exact Or.inl ⟨t, by simp, h⟩
      · exact Or.inr h
      · rcases ih h with ⟨t', ht', hc⟩ | hs
        · exact Or.inl ⟨t', List.mem_cons_of_mem t ht', hc⟩
        · exact Or.inr hs

theorem parenCapture_parenDecl (toks : List (List Char))
    (h : ∀ t ∈ toks, ')' ∉ t ∧ '\n' ∉ t ∧ '\r' ∉ t) :
    parenCapture (parenDecl toks).data = some (List.intercalate commaSp toks) := by
  have hinner : ∀ c ∈ List.intercalate commaSp toks,
      c ≠ ')' ∧ c ≠ '\n' ∧ c ≠ '\r' := by
    intro c hc
    rcases mem_intercalate_commaSp _ hc with ⟨t, ht, hct⟩ | hsep
    · have ht' := h t ht
      exact ⟨fun e => ht'.1 (e ▸ hct), fun e => ht'.2.1 (e ▸ hct),
        fun e => ht'.2.2 (e ▸ hct)⟩
    · rcases (by simpa [commaSp] using hsep : c = ',' ∨ c = ' ') with h' | h' <;>
        (subst h'; exact ⟨by decide, by decide, by decide⟩)
  show parenCapture ('(' :: (List.intercalate commaSp toks
    ++ [')', ' ', '=', '>', ' ', '\x7b', '\x7d'])) = _
  unfold parenCapture
  rw [if_pos (by simp)]
  have hdt : dropThrough '(' ('(' :: (List.intercalate commaSp toks
      ++ [')', ' ', '=', '>', ' ', '\x7b', '\x7d'])) =
      List.intercalate commaSp toks ++ [')', ' ', '=', '>', ' ', '\x7b', '\x7d'] := by
    simp [dropThrough]
  rw [hdt]
  have hline : (List.intercalate commaSp toks
      ++ [')', ' ', '=', '>', ' ', '\x7b', '\x7d']).takeWhile
        (fun c => decide (c ≠ '\n' ∧ c ≠ '\r')) =
      List.intercalate commaSp toks ++ [')', ' ', '=', '>', ' ', '\x7b', '\x7d'] := by
    rw [List.takeWhile_append_of_pos]
    · congr 1
    · intro a ha
      have := hinner a ha
      simp [this.2.1, this.2.2]
  rw [hline]
  rw [if_pos (by simp)]
  have hcap : (List.intercalate commaSp toks
      ++ [')', ' ', '=', '>', ' ', '\x7b', '\x7d']).takeWhile
        (fun c => decide (c ≠ ')')) = List.intercalate commaSp toks := by
    rw [List.takeWhile_append_of_pos]
    · simp
    · intro a ha
      simp [(hinner a ha).1]
  rw [hcap]

theorem test1Aux_arrow (tail : List Char) :
    ∀ name : List Char, (∀ c ∈ name, c ≠ '(') →
      test1Aux (name ++ (' ' :: '=' :: '>' :: tail)) = true := by
  intro name
  induction name with
  | nil =>
    intro _
    simp [test1Aux, leadsWith]
  | cons c rest ih =>
    intro h
    have hc : c ≠ '(' := h c (List.mem_cons_self c rest)
    simp only [List.cons_append, test1Aux, if_neg hc, List.append_eq]
    rw [ih (fun x hx => h x (List.mem_cons_of_mem c hx))]
    simp

theorem match1_arrow (tail : List Char) (name : List Char) (hne : name ≠ [])
    (h : ∀ c ∈ name, isWsChar c = false) :
    match1 (name ++ (' ' :: '=' :: '>' :: tail)) = some name := by
  have hw : wsRun (name ++ (' ' :: '=' :: '>' :: tail)) = 0 := by
    cases name with
    | nil => exact absurd rfl hne
    | cons a as =>
      have := h a (List.mem_cons_self a as)
      simp [wsRun, List.takeWhile, this]
  have hr : nonWsRun (name ++ (' ' :: '=' :: '>' :: tail)) = name.length := by
    unfold nonWsRun
    rw [List.takeWhile_append_of_pos (by intro a ha; simp [h a ha])]
    simp [List.takeWhile, isWsChar]
  have hdrop : (name ++ (' ' :: '=' :: '>' :: tail)).drop name.length =
      ' ' :: '=' :: '>' :: tail := List.drop_left' rfl
  have hw2 : wsRun ((name ++ (' ' :: '=' :: '>' :: tail)).drop name.length) = 1 := by
    rw [hdrop]
    simp [wsRun, List.takeWhile, isWsChar]
  have harrow : arrowAt (name ++ (' ' :: '=' :: '>' :: tail)) (name.length + 1) = true := by
    unfold arrowAt
    have : (name ++ (' ' :: '=' :: '>' :: tail)).drop (name.length + 1) =
        '=' :: '>' :: tail := by
      rw [show name ++ (' ' :: '=' :: '>' :: tail) =
        (name ++ [' ']) ++ ('=' :: '>' :: tail) by simp]
      exact List.drop_left' (by simp)
    rw [this]
    simp [leadsWith]
  have htake : (name ++ (' ' :: '=' :: '>' :: tail)).take name.length = name :=
    List.take_left' rfl
  unfold match1
  rw [hw]
  simp only [List.drop_zero, hr]
  rw [if_neg (by simpa using hne)]
  simp only [Nat.zero_add, hw2, harrow, if_pos, htake, List.drop_zero]

/-- C9 amended: for declarations whose parameter tokens avoid the
separators of the extraction regexes — no token is empty, none contains
`')'`, a newline, or the two-character separator `", "`, and the
stripped token is not a rest parameter — `getParamNames` returns one
entry per declared parameter position: exactly the declared top-level
token with any default-value expression stripped (and the parenless
single-parameter arrow form returns its sole name). -/
theorem claim9_param_naming_amended :
    (∀ toks : List (List Char),
      (∀ t ∈ toks, t ≠ [] ∧ ')' ∉ t ∧ '\n' ∉ t ∧ '\r' ∉ t ∧
        hasSub commaSp t = false ∧ leadsWith restDots (stripDefault t) = false) →
      getParamNames (parenDecl toks) =
        .ok (toks.map (fun t => String.mk (stripDefault t)))) ∧
    (∀ name : List Char, name ≠ [] →
      (∀ c ∈ name, isWsChar c = false ∧ c ≠ '(') →
      getParamNames (arrowDecl name) = .ok [String.mk name]) := by
  constructor
  · intro toks h
    cases htoks : toks with
    | nil => decide
    | cons t rest =>
      subst htoks
      have h1 : test1Aux (parenDecl (t :: rest)).data = false := by
        simp [parenDecl, test1Aux]
      have hparen : (parenDecl (t :: rest)).data.any (fun c => c = '(') = true := by
        simp [parenDecl]
      have hcap := parenCapture_parenDecl (t :: rest)
        (fun x hx => ⟨(h x hx).2.1, (h x hx).2.2.1, (h x hx).2.2.2.1⟩)
      have hsplit : splitCommaSp (List.intercalate commaSp (t :: rest)) = t :: rest :=
        splitCommaSp_intercalate (t :: rest) (by simp)
          (fun x hx => (h x hx).2.2.2.2.1)
      have hfilter : (t :: rest).filter (fun x => x ≠ []) = t :: rest := by
        rw [List.filter_eq_self]
        intro a ha
        simp [(h a ha).1]
      have htoks2 : parsedTokens (parenDecl (t :: rest)).data =
          some ((t :: rest).map stripDefault) := by
        simp only [parsedTokens, hcap, Option.map_some', hsplit, hfilter]
      have hfind : ((t :: rest).map stripDefault).find?
          (fun x => leadsWith restDots x) = none := by
        rw [List.find?_eq_none]
        intro x hx
        obtain ⟨y, hy, rfl⟩ := List.mem_map.mp hx
        simp [(h y hy).2.2.2.2.2]
      simp only [getParamNames, h1, Bool.false_eq_true, if_false, hparen, if_pos,
        htoks2, hfind, List.map_map]
      rfl
  · intro name hne h
    have h1 : test1Aux (arrowDecl name).data = true :=
      test1Aux_arrow _ name (fun c hc => (h c hc).2)
    have h2 : match1 (arrowDecl name).data = some name :=
      match1_arrow _ name hne (fun c hc => (h c hc).1)
    simp only [getParamNames, h1, if_pos, h2]

theorem claim9_param_naming_amended_witness :
    getParamNames "(a, b = 10, \x7bc: \x7bd\x7d\x7d) => \x7b\x7d" =
      .ok ["a", "b", "\x7bc: \x7bd\x7d\x7d"] ∧
    getParamNames "name => \x7b\x7d" = .ok ["name"] := by
  constructor
  · have h := claim9_param_naming_amended.1
      [['a'], ['b', ' ', '=', ' ', '1', '0'],
       ['\x7b', 'c', ':', ' ', '\x7b', 'd', '\x7d', '\x7d']]
      (by decide)
    have e : parenDecl [['a'], ['b', ' ', '=', ' ', '1', '0'],
        ['\x7b', 'c', ':', ' ', '\x7b', 'd', '\x7d', '\x7d']] =
        "(a, b = 10, \x7bc: \x7bd\x7d\x7d) => \x7b\x7d" := by decide
    rw [e] at h
    exact h.trans (by decide)
  · have h := claim9_param_naming_amended.2 ['n', 'a', 'm', 'e'] (by decide) (by decide)
    have e : arrowDecl ['n', 'a', 'm', 'e'] = "name => \x7b\x7d" := by decide
    rw [e] at h
    exact h.trans (by decide)

/-! ### Claim C2: the marshalling round-trip -/

theorem jsSet_new {α : Type} (o : List (String × Option α)) (k : String)
    (v : Option α) (h : k ∉ o.map Prod.fst) : jsSet o k v = o ++ [(k, v)] := by
  unfold jsSet
  rw [if_neg]
  simp only [List.any_eq_true, decide_eq_true_eq, not_exists, not_and]
  intro kv hkv
  intro hk
  exact h (hk ▸ List.mem_map_of_mem Prod.fst hkv)

theorem jsGet_cons_ne {α : Type} {k k' : String} {v : Option α}
    {o : List (String × Option α)} (h : k ≠ k') :
    jsGet ((k', v) :: o) k = jsGet o k := by
  simp only [jsGet, List.find?]
  rw [show decide (k' = k) = false by
    simp only [decide_eq_false_iff_not]
    exact fun e => h e.symm]

theorem jsGet_append_left {α : Type} {k : String}
    {l₁ l₂ : List (String × Option α)} (h : k ∉ l₁.map Prod.fst) :
    jsGet (l₁ ++ l₂) k = jsGet l₂ k := by
  unfold jsGet
  rw [List.find?_append]
  have : l₁.find? (fun kv => kv.1 = k) = none := by
    rw [List.find?_eq_none]
    intro kv hkv
    simp only [decide_eq_true_eq]
    intro hk
    exact h (hk ▸ List.mem_map_of_mem Prod.fst hkv)
  rw [this, Option.none_or]

theorem jsGet_self_map {α : Type} :
    ∀ (ps tail : List (String × Option α)), (ps.map Prod.fst).Nodup →
      (ps.map Prod.fst).map (jsGet (ps ++ tail)) = ps.map Prod.snd := by
  intro ps
  induction ps with
  | nil => intro tail _; rfl
  | cons kv ps' ih =>
    intro tail hnd
    obtain ⟨k, v⟩ := kv
    simp only [List.map_cons, List.cons_append]
    have hhead : jsGet ((k, v) :: (ps' ++ tail)) k = v := by
      simp [jsGet, List.find?]
    rw [hhead]
    simp only [List.map_cons, List.nodup_cons] at hnd
    have hrest : (ps'.map Prod.fst).map (jsGet ((k, v) :: (ps' ++ tail))) =
        (ps'.map Prod.fst).map (jsGet (ps' ++ tail)) := by
      apply List.map_congr_left
      intro q hq
      exact jsGet_cons_ne (fun e => hnd.1 (e ▸ hq))
    rw [hrest, ih tail hnd.2]

theorem range'_map_jsIndex {α : Type} (args : List (Option α)) :
    ∀ (m s : Nat), s + m ≤ args.length →
      (List.range' s m).map (fun i => jsIndex args i) = (args.drop s).take m := by
  intro m
  induction m with
  | zero => intro s _; simp
  | succ m ih =>
    intro s hs
    have hslt : s < args.length := by omega
    rw [List.range'_succ, List.map_cons, List.drop_eq_getElem_cons hslt]
    have hidx : jsIndex args s = args[s] := by
      simp [jsIndex, List.get?_eq_getElem?, List.getElem?_eq_getElem hslt]
    rw [hidx, List.take_succ_cons, ih (s + 1) (by omega)]

theorem arrayToObj_fold1 {α : Type} (args : List (Option α)) :
    ∀ (names : List String) (start : Nat) (acc : List (String × Option α)),
      names.Nodup → (∀ p ∈ names, p ∉ acc.map Prod.fst) →
      (names.enumFrom start).foldl
        (fun obj iprop => jsSet obj iprop.2 (jsIndex args iprop.1)) acc =
      acc ++ (names.enumFrom start).map
        (fun iprop => (iprop.2, jsIndex args iprop.1)) := by
  intro names
  induction names with
  | nil => intro start acc _ _; simp
  | cons p rest ih =>
    intro start acc hnd hacc
    simp only [List.enumFrom_cons, List.foldl_cons, List.map_cons]
    rw [jsSet_new _ _ _ (hacc p (List.mem_cons_self p rest))]
    simp only [List.nodup_cons] at hnd
    rw [ih (start + 1) (acc ++ [(p, jsIndex args start)]) hnd.2 ?_]
    · simp
    · intro q hq
      simp only [List.map_append, List.mem_append, List.map_cons, List.map_nil]
      rintro (hmem | hmem)
      · exact hacc q (List.mem_cons_of_mem p hq) hmem
      · simp only [List.mem_singleton] at hmem
        exact hnd.1 (hmem ▸ hq)

theorem arrayToObj_fold2 {α : Type} (args : List (Option α)) :
    ∀ (m s : Nat) (acc : List (String × Option α)),
      (∀ i, s ≤ i → i < s + m → natToStr i ∉ acc.map Prod.fst) →
      (List.range' s m).foldl
        (fun obj i => jsSet obj (natToStr i) (jsIndex args i)) acc =
      acc ++ (List.range' s m).map (fun i => (natToStr i, jsIndex args i)) := by
  intro m
  induction m with
  | zero => intro s acc _; simp
  | succ m ih =>
    intro s acc hacc
    rw [List.range'_succ]
    simp only [List.foldl_cons, List.map_cons]
    rw [jsSet_new _ _ _ (hacc s (le_refl s) (by omega))]
    rw [ih (s + 1) (acc ++ [(natToStr s, jsIndex args s)]) ?_]
    · simp
    · intro i hi1 hi2
      simp only [List.map_append, List.mem_append, List.map_cons, List.map_nil]
      rintro (hmem | hmem)
      · exact hacc i (by omega) (by omega) hmem
      · simp only [List.mem_singleton] at hmem
        exact absurd (natToStr_injective hmem) (by omega)

theorem arrayToObj_struct {α : Type} (args : List (Option α)) (names : List String)
    (hnd : names.Nodup)
    (hov : ∀ i, names.length ≤ i → i < args.length → natToStr i ∉ names) :
    arrayToObj args names =
      names.enum.map (fun iprop => (iprop.2, jsIndex args iprop.1))
      ++ (List.range' names.length (args.length - names.length)).map
          (fun i => (natToStr i, jsIndex args i)) := by
  unfold arrayToObj
  have h1 := arrayToObj_fold1 args names 0 [] hnd (by simp)
  rw [show names.enum = names.enumFrom 0 from rfl, h1, List.nil_append]
  have hkeys : ((names.enumFrom 0).map
      (fun iprop => (iprop.2, jsIndex args iprop.1))).map Prod.fst = names := by
    rw [List.map_map]
    exact List.enumFrom_map_snd 0 names
  exact arrayToObj_fold2 args (args.length - names.length) names.length _
    (fun i hi1 hi2 => by rw [hkeys]; exact hov i hi1 (by omega))

theorem filterMap_canonIdx_natToStr :
    ∀ r : List Nat, (∀ i ∈ r, i < 4294967295) →
      r.filterMap (fun i => canonIdx (natToStr i)) = r := by
  intro r
  induction r with
  | nil => intro _; rfl
  | cons i r' ih =>
    intro h
    rw [List.filterMap_cons]
    rw [canonIdx_natToStr (h i (List.mem_cons_self i r'))]
    rw [ih (fun j hj => h j (List.mem_cons_of_mem i hj))]

theorem jsKeys_arrayToObj_filtered {α : Type} (args : List (Option α))
    (names : List String) (hnd : names.Nodup)
    (hbound : args.length ≤ 4294967295)
    (hov : ∀ i, names.length ≤ i → i < args.length → natToStr i ∉ names) :
    (jsKeys (arrayToObj args names)).filter (fun p => !names.contains p) =
      (List.range' names.length (args.length - names.length)).map natToStr := by
  have hb : ∀ i ∈ List.range' names.length (args.length - names.length),
      i < 4294967295 := by
    intro i hi
    rw [List.mem_range'_1] at hi
    omega
  have hkeys : (arrayToObj args names).map Prod.fst =
      names ++ (List.range' names.length (args.length - names.length)).map natToStr := by
    rw [arrayToObj_struct args names hnd hov]
    rw [List.map_append, List.map_map, List.map_map]
    congr 1
    exact List.enumFrom_map_snd 0 names
  simp only [jsKeys, hkeys]
  have hnums : (names ++ (List.range' names.length
        (args.length - names.length)).map natToStr).filterMap canonIdx =
      names.filterMap canonIdx
        ++ List.range' names.length (args.length - names.length) := by
    rw [List.filterMap_append]
    congr 1
    rw [List.filterMap_map]
    exact filterMap_canonIdx_natToStr _ hb
  rw [hnums]
  rw [List.filter_append]
  have hsecond : (((names ++ (List.range' names.length
        (args.length - names.length)).map natToStr).filter
          (fun k => (canonIdx k).isNone)).filter (fun p => !names.contains p)) = [] := by
    rw [List.filter_append]
    rw [show ((List.range' names.length (args.length - names.length)).map
        natToStr).filter (fun k => (canonIdx k).isNone) = [] by
      rw [List.filter_eq_nil_iff]
      intro a ha
      obtain ⟨i, hi, rfl⟩ := List.mem_map.mp ha
      simp [canonIdx_natToStr (hb i hi)]]
    rw [List.append_nil, List.filter_eq_nil_iff]
    intro a ha
    have hmem : a ∈ names := (List.mem_filter.mp ha).1
    simp [List.contains, List.elem_eq_mem, hmem]
  rw [hsecond, List.append_nil]
  rw [List.filter_map]
  have hq : (((names.filterMap canonIdx
      ++ List.range' names.length (args.length - names.length)).insertionSort
        (· ≤ ·)).filter ((fun p => !names.contains p) ∘ natToStr)) =
      List.range' names.length (args.length - names.length) := by
    have hperm : (((names.filterMap canonIdx
        ++ List.range' names.length (args.length - names.length)).insertionSort
          (· ≤ ·)).filter ((fun p => !names.contains p) ∘ natToStr)).Perm
        ((names.filterMap canonIdx
          ++ List.range' names.length (args.length - names.length)).filter
            ((fun p => !names.contains p) ∘ natToStr)) :=
      (List.perm_insertionSort _ _).filter _
    have hfiltered : (names.filterMap canonIdx
        ++ List.range' names.length (args.length - names.length)).filter
          ((fun p => !names.contains p) ∘ natToStr) =
        List.range' names.length (args.length - names.length) := by
      rw [List.filter_append]
      rw [show (names.filterMap canonIdx).filter
          ((fun p => !names.contains p) ∘ natToStr) = [] by
        rw [List.filter_eq_nil_iff]
        intro m hm
        obtain ⟨k, hk, hck⟩ := List.mem_filterMap.mp hm
        have := (canonIdx_eq_some hck).1
        simp [Function.comp, this, List.contains, List.elem_eq_mem, hk]]
      rw [List.nil_append, List.filter_eq_self]
      intro i hi
      rw [List.mem_range'_1] at hi
      have := hov i hi.1 (by omega)
      simp [Function.comp, List.contains, List.elem_eq_mem, this]
    have hsort1 : (((names.filterMap canonIdx
        ++ List.range' names.length (args.length - names.length)).insertionSort
          (· ≤ ·)).filter ((fun p => !names.contains p) ∘ natToStr)).Sorted
        (· ≤ ·) :=
      (List.sorted_insertionSort _ _).filter _
    have hsort2 : (List.range' names.length
        (args.length - names.length)).Sorted (· ≤ ·) :=
      List.pairwise_le_range' _ _
    rw [hfiltered] at hperm
    exact List.eq_of_perm_of_sorted hperm hsort1 hsort2
  rw [hq]

theorem arrayToObj_get_names {α : Type} (args : List (Option α))
    (names : List String) (hnd : names.Nodup) (hlen : names.length ≤ args.length)
    (hov : ∀ i, names.length ≤ i → i < args.length → natToStr i ∉ names) :
    names.map (jsGet (arrayToObj args names)) = args.take names.length := by
  rw [arrayToObj_struct args names hnd hov]
  have hkeys : ((names.enumFrom 0).map
      (fun iprop => (iprop.2, jsIndex args iprop.1))).map Prod.fst = names := by
    rw [List.map_map]
    exact List.enumFrom_map_snd 0 names
  have h := jsGet_self_map
    ((names.enumFrom 0).map (fun iprop => (iprop.2, jsIndex args iprop.1)))
    ((List.range' names.length (args.length - names.length)).map
      (fun i => (natToStr i, jsIndex args i)))
    (by rw [hkeys]; exact hnd)
  rw [hkeys] at h
  rw [show names.enum = names.enumFrom 0 from rfl, h]
  rw [List.map_map]
  have : (Prod.snd ∘ fun iprop : Nat × String => (iprop.2, jsIndex args iprop.1)) =
      (fun i => jsIndex args i) ∘ Prod.fst := rfl
  rw [this, ← List.map_map]
  rw [List.enumFrom_map_fst]
  rw [range'_map_jsIndex args names.length 0 (by omega)]
  simp

theorem arrayToObj_get_overflow {α : Type} (args : List (Option α))
    (names : List String) (hnd : names.Nodup) (hlen : names.length ≤ args.length)
    (hov : ∀ i, names.length ≤ i → i < args.length → natToStr i ∉ names) :
    ((List.range' names.length (args.length - names.length)).map natToStr).map
        (jsGet (arrayToObj args names)) = args.drop names.length := by
  rw [arrayToObj_struct args names hnd hov]
  have hkeys : ((names.enumFrom 0).map
      (fun iprop => (iprop.2, jsIndex args iprop.1))).map Prod.fst = names := by
    rw [List.map_map]
    exact List.enumFrom_map_snd 0 names
  have hskip : ((List.range' names.length (args.length - names.length)).map
      natToStr).map (jsGet ((names.enumFrom 0).map
        (fun iprop => (iprop.2, jsIndex args iprop.1))
        ++ (List.range' names.length (args.length - names.length)).map
            (fun i => (natToStr i, jsIndex args i)))) =
      ((List.range' names.length (args.length - names.length)).map natToStr).map
        (jsGet ((List.range' names.length (args.length - names.length)).map
          (fun i => (natToStr i, jsIndex args i)))) := by
    apply List.map_congr_left
    intro x hx
    obtain ⟨i, hi, rfl⟩ := List.mem_map.mp hx
    rw [List.mem_range'_1] at hi
    exact jsGet_append_left (by rw [hkeys]; exact hov i hi.1 (by omega))
  rw [show names.enum = names.enumFrom 0 from rfl, hskip]
  have hovkeys : (((List.range' names.length (args.length - names.length)).map
      (fun i => (natToStr i, jsIndex args i))).map Prod.fst) =
      (List.range' names.length (args.length - names.length)).map natToStr := by
    rw [List.map_map]
    rfl
  have h := jsGet_self_map
    ((List.range' names.length (args.length - names.length)).map
      (fun i => (natToStr i, jsIndex args i))) []
    (by
      rw [hovkeys]
      exact (List.nodup_range' _ _).map natToStr_injective)
  rw [List.append_nil, hovkeys] at h
  rw [h, List.map_map]
  have : (Prod.snd ∘ fun i : Nat => (natToStr i, jsIndex args i)) =
      fun i => jsIndex args i := rfl
  rw [this, range'_map_jsIndex args (args.length - names.length) names.length
    (by omega)]
  rw [List.take_of_length_le (by simp)]

/-- C2 fails as stated: the marshalling round-trip does not hold for
every name list.  With duplicate names (`["a", "a"]`) the second
assignment overwrites the first, and with a name equal to the
integer-string key of an overflow position (`["1"]` with two arguments)
the overflow assignment `obj[1] = args[1]` overwrites the named
property.  In both cases reconstruction does not reproduce `args`,
although `args.length ≥ names.length`. -/
theorem claim2_marshalling_roundtrip_counterexample :
    (restArgs (arrayToObj [some 1, some 2] ["a", "a"]) ["a", "a"] ≠
      ([some 1, some 2] : List (Option Nat)) ∧
      (["a", "a"] : List String).length ≤ 2) ∧
    (restArgs (arrayToObj [some 1, some 2] ["1"]) ["1"] ≠
      ([some 1, some 2] : List (Option Nat)) ∧
      (["1"] : List String).length ≤ 2) := by decide

/-- C2 amended: for every argument array and name list with
`names.length ≤ args.length ≤ 2^32 - 1` (the largest JS array length),
*pairwise-distinct* names, and no name equal to the integer-string key
of an overflow position, converting with `arrayToObj` and
reconstructing positionally (the HTTP handler's `restArgs`) reproduces
`args` exactly, including overflow elements. -/
theorem claim2_marshalling_roundtrip_amended {α : Type} (args : List (Option α))
    (names : List String)
    (hlen : names.length ≤ args.length)
    (hbound : args.length ≤ 4294967295)
    (hnd : names.Nodup)
    (hov : ∀ i ∈ List.range' names.length (args.length - names.length),
      natToStr i ∉ names) :
    restArgs (arrayToObj args names) names = args := by
  have hov' : ∀ i, names.length ≤ i → i < args.length → natToStr i ∉ names := by
    intro i h1 h2
    exact hov i (by rw [List.mem_range'_1]; omega)
  unfold restArgs
  rw [jsKeys_arrayToObj_filtered args names hnd hbound hov']
  rw [arrayToObj_get_names args names hnd hlen hov']
  rw [arrayToObj_get_overflow args names hnd hlen hov']
  exact List.take_append_drop _ args

theorem claim2_marshalling_roundtrip_amended_witness :
    (["a", "b"] : List String).length ≤ 3 ∧
    (3 : Nat) ≤ 4294967295 ∧
    (["a", "b"] : List String).Nodup ∧
    (∀ i ∈ List.range' 2 1, natToStr i ∉ (["a", "b"] : List String)) ∧
    restArgs (arrayToObj [some 10, some 20, some 30] ["a", "b"]) ["a", "b"] =
      ([some 10, some 20, some 30] : List (Option Nat)) := by
  refine ⟨by decide, by decide, by decide, by decide, ?_⟩
  exact claim2_marshalling_roundtrip_amended [some 10, some 20, some 30]
    ["a", "b"] (by decide) (by decide) (by decide) (by decide)

/-! ### Claim C4: the exposure checksum -/

/-- C4 amended, part of the embedding: `extractApis` computes the
checksum as the CRC-32 of the JSON serialization of the purged
descriptor list; identical purged projections give identical checksums,
and changing only schemas or the handler leaves the purged projection
(hence the checksum) unchanged. -/
theorem claim4_checksum_amended :
    (∀ (logger : JsU) (groupOpts : String → JsU) (groups : List ApiGroup)
      (t : List String) (res : ExposedAPIList),
      extractApis logger groupOpts groups = (t, .ok res) →
      res.exposed = res.descriptors.map purge ∧
      res.checksum = crc32Str (jsonOfExposed (res.descriptors.map purge))) ∧
    (∀ d : Descriptor, purge d =
      ⟨d.group, d.id, d.params, d.path, d.hasBufferInput, d.hasStreamInput⟩) ∧
    (∀ ds1 ds2 : List Descriptor, ds1.map purge = ds2.map purge →
      checksumOfExposed (ds1.map purge) = checksumOfExposed (ds2.map purge)) ∧
    (∀ (d : Descriptor) (ps : Option (List JoiSchema)) (rs : Option JoiSchema)
      (vr : Bool) (a : ApiFn),
      purge { d with payloadSchema := ps, responseSchema := rs, validateResponse := vr, api := a } = purge d) := by
  refine ⟨?_, fun d => rfl, fun ds1 ds2 h => by rw [h], fun d ps rs vr a => rfl⟩
  intro logger groupOpts groups t res h
  cases hloop : extractLoop logger groupOpts groups with
  | mk t' r =>
    simp only [extractApis, hloop] at h
    cases r with
    | error e => simp at h
    | ok ds =>
      obtain ⟨-, h2⟩ := Prod.mk.injEq .. ▸ h
      cases h2
      exact ⟨rfl, rfl⟩

def witObjGroup : ApiGroup := ⟨"g", fun _ => .ok (some (.obj []))⟩

def witSchemaDesc : Descriptor :=
  { group := "calc", id := "add", params := ["a", "b"],
    path := "/api/calc/add", hasBufferInput := false, hasStreamInput := false,
    payloadSchema := some [⟨5⟩, ⟨6⟩], responseSchema := some ⟨7⟩,
    validateResponse := true, api := { src := "(a, b) => \x7b\x7d" } }

theorem claim4_checksum_amended_witness :
    checksumOfExposed ([] : List ExposedAPI) = 223132457 ∧
    purge { witSchemaDesc with payloadSchema := none, responseSchema := none, validateResponse := false, api := { src := "x => \x7b\x7d" } } =
      purge witSchemaDesc ∧
    checksumOfExposed ([witSchemaDesc].map purge) =
      checksumOfExposed ([witSchemaDesc].map purge) := by
  refine ⟨?_, ?_, ?_⟩
  · have h := claim4_checksum_amended.1 none (fun _ => none) [witObjGroup]
      ["g"] ⟨[], [], 223132457⟩ (by rfl)
    have := h.2
    simp only [List.map_nil] at this
    rw [this]
    decide
  · exact claim4_checksum_amended.2.2.2 witSchemaDesc none none false
      { src := "x => \x7b\x7d" }
  · exact claim4_checksum_amended.2.2.1 [witSchemaDesc] [witSchemaDesc] rfl

def cexExpA : ExposedAPI :=
  { group := "g", id := "yd5cous7", params := [],
    path := "/api/g/yd5cous7", hasBufferInput := false, hasStreamInput := false }

def cexExpB : ExposedAPI :=
  { group := "g", id := "o16ztj0g", params := [],
    path := "/api/g/o16ztj0g", hasBufferInput := false, hasStreamInput := false }

def cexAChunk0 : List Nat := [91, 123, 34, 103, 114, 111, 117, 112, 34, 58, 34, 103, 34, 44, 34, 105, 100, 34, 58, 34, 121, 100, 53, 99]

def cexAChunk1 : List Nat := [111, 117, 115, 55, 34, 44, 34, 112, 97, 114, 97, 109, 115, 34, 58, 91, 93, 44, 34, 112, 97, 116, 104, 34]

def cexAChunk2 : List Nat := [58, 34, 47, 97, 112, 105, 47, 103, 47, 121, 100, 53, 99, 111, 117, 115, 55, 34, 44, 34, 104, 97, 115, 66]

def cexAChunk3 : List Nat := [117, 102, 102, 101, 114, 73, 110, 112, 117, 116, 34, 58, 102, 97, 108, 115, 101, 44, 34, 104, 97, 115, 83, 116]

def cexAChunk4 : List Nat := [114, 101, 97, 109, 73, 110, 112, 117, 116, 34, 58, 102, 97, 108, 115, 101, 125, 93]

def cexABytes : List Nat :=
  cexAChunk0 ++ cexAChunk1 ++ cexAChunk2 ++ cexAChunk3 ++ cexAChunk4

def cexBChunk0 : List Nat := [91, 123, 34, 103, 114, 111, 117, 112, 34, 58, 34, 103, 34, 44, 34, 105, 100, 34, 58, 34, 111, 49, 54, 122]

def cexBChunk1 : List Nat := [116, 106, 48, 103, 34, 44, 34, 112, 97, 114, 97, 109, 115, 34, 58, 91, 93, 44, 34, 112, 97, 116, 104, 34]

def cexBChunk2 : List Nat := [58, 34, 47, 97, 112, 105, 47, 103, 47, 111, 49, 54, 122, 116, 106, 48, 103, 34, 44, 34, 104, 97, 115, 66]

def cexBChunk3 : List Nat := [117, 102, 102, 101, 114, 73, 110, 112, 117, 116, 34, 58, 102, 97, 108, 115, 101, 44, 34, 104, 97, 115, 83, 116]

def cexBChunk4 : List Nat := [114, 101, 97, 109, 73, 110, 112, 117, 116, 34, 58, 102, 97, 108, 115, 101, 125, 93]

def cexBBytes : List Nat :=
  cexBChunk0 ++ cexBChunk1 ++ cexBChunk2 ++ cexBChunk3 ++ cexBChunk4

theorem cexA_fold : crc32Fold 4294967295 cexABytes = 2561858157 := by
  have h0 : crc32Fold 4294967295 cexAChunk0 = 2918882748 := by decide
  have h1 : crc32Fold 2918882748 cexAChunk1 = 2366533355 := by decide
  have h2 : crc32Fold 2366533355 cexAChunk2 = 4279358986 := by decide
  have h3 : crc32Fold 4279358986 cexAChunk3 = 2062296892 := by decide
  have h4 : crc32Fold 2062296892 cexAChunk4 = 2561858157 := by decide
  simp only [cexABytes, crc32Fold_append, h0, h1, h2, h3, h4]

theorem cexB_fold : crc32Fold 4294967295 cexBBytes = 2561858157 := by
  have h0 : crc32Fold 4294967295 cexBChunk0 = 4256793255 := by decide
  have h1 : crc32Fold 4256793255 cexBChunk1 = 2366533355 := by decide
  have h2 : crc32Fold 2366533355 cexBChunk2 = 4279358986 := by decide
  have h3 : crc32Fold 4279358986 cexBChunk3 = 2062296892 := by decide
  have h4 : crc32Fold 2062296892 cexBChunk4 = 2561858157 := by decide
  simp only [cexBBytes, crc32Fold_append, h0, h1, h2, h3, h4]

theorem cexA_bytes : (jsonOfExposed [cexExpA]).data.map Char.toNat = cexABytes := by
  decide

theorem cexB_bytes : (jsonOfExposed [cexExpB]).data.map Char.toNat = cexBBytes := by
  decide

/-- C4 fails as stated: renaming an exposed API does not always change
the checksum.  The exposed lists for the single API `g/yd5cous7` and
its rename `g/o16ztj0g` have different JSON serializations, yet their
CRC-32 checksums coincide (a 32-bit hash collision). -/
theorem claim4_checksum_counterexample :
    cexExpA.id ≠ cexExpB.id ∧ cexExpA ≠ cexExpB ∧
    jsonOfExposed [cexExpA] ≠ jsonOfExposed [cexExpB] ∧
    checksumOfExposed [cexExpA] = checksumOfExposed [cexExpB] := by
  refine ⟨by decide, by decide, by decide, ?_⟩
  show crc32Bytes ((jsonOfExposed [cexExpA]).data.map Char.toNat) =
    crc32Bytes ((jsonOfExposed [cexExpB]).data.map Char.toNat)
  rw [cexA_bytes, cexB_bytes]
  show crc32Fold 4294967295 cexABytes ^^^ 4294967295 =
    crc32Fold 4294967295 cexBBytes ^^^ 4294967295
  rw [cexA_fold, cexB_fold]
